import Mathlib

/-!
Verification of the Praxis orchestration core: the sliding-window rate-limit
tracker, the retry-wrapped model adapters, the model router, the orchestrator
quota tracker and the command dispatcher, embedded from `model_layer.py`,
`brain.py` and `main.py`.

Conventions of the embedding:
* Python `float` timestamps (`time.time()`, `datetime` values in seconds) are
  modelled as rationals; UTC dates as integers.
* `float('inf')`, installed as the per-minute cap when `rate_limit_rpm <= 0`,
  is modelled as `none`: a finite queue length never reaches infinity, so the
  `none` branch of each comparison returns the value the Python comparison
  with infinity produces.
* Mutation is modelled by explicit state passing; methods that mutate and
  return become functions returning the new state.
* Spoken messages are modelled as structured values carrying the data the
  source interpolates into its message strings; the surrounding fixed text is
  abstracted into the constructor name.
-/

namespace Praxis

/-! ## RateLimitTracker (`model_layer.py`, lines 47-79) -/

/-- Sliding-window request tracker.  `limit = none` models the `float('inf')`
cap installed by `__init__` when `rate_limit_rpm <= 0`; `requests` is the
deque of timestamps, oldest first.  `time_window_seconds = 60.0` is inlined
as the literal `60`. -/
structure RateLimitTracker where
  limit : Option Nat
  requests : List ℚ
deriving DecidableEq, Repr

def RateLimitTracker.init (rate_limit_rpm : Int) : RateLimitTracker :=
  if rate_limit_rpm ≤ 0 then ⟨none, []⟩ else ⟨some rate_limit_rpm.toNat, []⟩

/-- `_prune_old_timestamps`: pop from the left while the head is at least the
window length old (`self.requests[0] <= current_time - self.time_window_seconds`). -/
def prune_old (reqs : List ℚ) (current_time : ℚ) : List ℚ :=
  reqs.dropWhile (fun ts => decide (ts ≤ current_time - 60))

/-- `add_request_timestamp`: append, then prune. -/
def RateLimitTracker.add_request_timestamp (t : RateLimitTracker) (current_time : ℚ) :
    RateLimitTracker :=
  { t with requests := prune_old (t.requests ++ [current_time]) current_time }

/-- `is_limit_exceeded`: prune, then compare queue length to the cap. -/
def RateLimitTracker.is_limit_exceeded (t : RateLimitTracker) (current_time : ℚ) : Bool :=
  match t.limit with
  | none => false
  | some c => decide (c ≤ (prune_old t.requests current_time).length)

/-- `get_wait_time`: prune; `0` while under the cap, otherwise the time until
the oldest surviving request leaves the window, clamped to `≥ 0`. -/
def RateLimitTracker.get_wait_time (t : RateLimitTracker) (current_time : ℚ) : ℚ :=
  let reqs := prune_old t.requests current_time
  match t.limit with
  | none => 0
  | some c =>
    if reqs.length < c then 0
    else
      match reqs with
      | [] => 0
      | oldest :: _ => max 0 (oldest + 60 - current_time)

/-- A sequence of `add_request_timestamp` calls, in order. -/
def recordAll (t : RateLimitTracker) (ts : List ℚ) : RateLimitTracker :=
  ts.foldl RateLimitTracker.add_request_timestamp t

/-! ## Model adapters and the common retry strategy (`model_layer.py`, lines 27-44 and 112-184) -/

/-- The exception classes the adapters raise: `apiError` is the base
`APIError`, raised both for blocked prompts and for unexpected errors (the
source raises the base class for both); `apiRateLimitError` the provider
rate-limit signal; `apiConnectionError` 5xx/connection failures;
`modelNotReadyError` a model that is not provisioned. -/
inductive AdapterError
  | apiError
  | apiRateLimitError
  | apiConnectionError
  | modelNotReadyError
deriving DecidableEq, Repr

/-- The retry predicate of `COMMON_RETRY_STRATEGY`:
`retry_if_exception_type(APIRateLimitError) | retry_if_exception_type(APIConnectionError)`. -/
def AdapterError.retriable : AdapterError → Bool
  | .apiRateLimitError => true
  | .apiConnectionError => true
  | _ => false

/-- Tenacity `wait_exponential(multiplier=1, min=1, max=10)`: after the n-th
failed attempt the wait is `max(max(0, min), min(multiplier * 2 ** n, max))`. -/
def wait_exponential (attemptNumber : Nat) : ℚ :=
  max (max 0 1) (min (1 * 2 ^ attemptNumber) 10)

structure RetryResult where
  outcome : Except AdapterError String
  sleeps : List ℚ
  attempts : Nat
deriving Repr

/-- One run of a `COMMON_RETRY_STRATEGY`-wrapped `_perform_api_call`.
`outcomes n` is what the n-th provider attempt produces (1-based);
`remaining` counts the retries still allowed (`stop_after_attempt(3)` allows
2 beyond the first attempt).  When `remaining` is 0 the outcome is returned,
or re-raised (`reraise=True`) with no further wait.  `sleeps` collects the
backoff sleeps in order; `attempts` counts provider attempts made. -/
def retry_go (outcomes : Nat → Except AdapterError String) (attempt : Nat) :
    Nat → RetryResult
  | 0 => { outcome := outcomes attempt, sleeps := [], attempts := 1 }
  | remaining + 1 =>
    match outcomes attempt with
    | .ok s => { outcome := .ok s, sleeps := [], attempts := 1 }
    | .error e =>
      if e.retriable then
        let rest := retry_go outcomes (attempt + 1) remaining
        { outcome := rest.outcome
          sleeps := wait_exponential attempt :: rest.sleeps
          attempts := rest.attempts + 1 }
      else { outcome := .error e, sleeps := [], attempts := 1 }

/-- `_perform_api_call` under `COMMON_RETRY_STRATEGY`: `stop_after_attempt(3)`. -/
def perform_api_call (outcomes : Nat → Except AdapterError String) : RetryResult :=
  retry_go outcomes 1 2

def ok_outcomes : Nat → Except AdapterError String := fun _ => .ok "hi"

/-! ### Claim C4 -/

/-- The cooperative throttle loop at the top of each adapter `generate`:
sleep `get_wait_time` while the tracker reports the limit exceeded, breaking
when the wait is `≤ 0`; sleeping advances the clock by the slept amount.
The fuel argument bounds the loop.  The loop body only sleeps: it performs
no `add_request_timestamp` call, which the return type (a bare time) makes
structural. -/
def throttle_loop (t : RateLimitTracker) : Nat → ℚ → ℚ
  | 0, now => now
  | fuel + 1, now =>
    if t.is_limit_exceeded now then
      let w := t.get_wait_time now
      if w ≤ 0 then now
      else throttle_loop t fuel (now + w)
    else now

structure GenerateResult where
  outcome : Except AdapterError String
  tracker : RateLimitTracker
  record_calls : Nat
  provider_attempts : Nat
  sleeps : List ℚ
deriving Repr

/-- `GoogleAdapter.generate` (the other concrete adapters are line-for-line
identical in this respect): cooperative throttle first, then the
retry-wrapped `_perform_api_call`; `add_request_timestamp` is called exactly
once, after the wrapped call returns, and only if it returned — an exception
propagates past the record call.  Network time inside attempts is not
modelled; the recorded timestamp is the post-throttle time plus the backoff
slept.  `record_calls` counts the `add_request_timestamp` invocations. -/
def generate (t : RateLimitTracker) (now : ℚ)
    (outcomes : Nat → Except AdapterError String) : GenerateResult :=
  let start := throttle_loop t (t.requests.length + 1) now
  let r := perform_api_call outcomes
  match r.outcome with
  | .ok s =>
    { outcome := .ok s
      tracker := t.add_request_timestamp (start + r.sleeps.sum)
      record_calls := 1
      provider_attempts := r.attempts
      sleeps := r.sleeps }
  | .error e =>
    { outcome := .error e
      tracker := t
      record_calls := 0
      provider_attempts := r.attempts
      sleeps := r.sleeps }

def three_attempt_outcomes : Nat → Except AdapterError String :=
  fun n => if n ≤ 2 then .error .apiConnectionError else .ok "done"

def always_fail_outcomes : Nat → Except AdapterError String :=
  fun _ => .error .apiConnectionError

/-! ## ModelRouter (`model_layer.py`, lines 513-593) -/

/-- The slice of a `ModelAdapter` the router consults: identity, capability
tags (`strengths`), the configured per-minute limit, and the optional
client-side tracker (`None` when `rate_limit_rpm <= 0` or tenacity is
absent, per `ModelAdapter.__init__`). -/
structure AdapterInfo where
  model_id : String
  strengths : List String
  rate_limit_rpm : Int
  tracker : Option RateLimitTracker
deriving Repr

/-- The skip test of the loop:
`adapter.rate_limit_tracker and adapter.rate_limit_tracker.is_limit_exceeded(time.time())`. -/
def AdapterInfo.isRateLimited (a : AdapterInfo) (now : ℚ) : Bool :=
  match a.tracker with
  | some tr => tr.is_limit_exceeded now
  | none => false

/-- `len(preferred_strengths.intersection(model_strengths))`: the number of
distinct preferred tags that occur among the adapter strengths — the Python
set-intersection size. -/
def strength_score (preferred strengths : List String) : Nat :=
  (preferred.dedup.filter (fun t => strengths.contains t)).length

/-- The static `TASK_PROFILES` table, projected to `preferred_strengths`. -/
def TASK_PROFILES : List (String × List String) :=
  [("simple_chat", ["fast", "chat", "efficient"]),
   ("complex_reasoning", ["powerful", "complex-reasoning", "large-context"]),
   ("document_summarization", ["large-context", "powerful", "complex-reasoning"]),
   ("code_generation", ["powerful", "strong-coding", "complex-reasoning", "fast"]),
   ("creative_writing", ["powerful", "large-context"]),
   ("local_fast_task", ["local", "fast", "offline-capable"])]

def lookup_profile (task_name : String) : Option (List String) :=
  (TASK_PROFILES.find? (fun p => p.1 == task_name)).map Prod.snd

/-- The selection loop of `select_model`: fold over the registry adapters
keeping `best_model` and `max_score` exactly as the Python loop does
(`max_score` starts at `-1`; a candidate must score `> 0` to be kept; ties
are broken toward a strictly higher configured rate limit). -/
def select_loop (now : ℚ) (preferred : List String) :
    List AdapterInfo → Option AdapterInfo → Int → Option AdapterInfo × Int
  | [], best, maxScore => (best, maxScore)
  | a :: rest, best, maxScore =>
    if a.isRateLimited now then select_loop now preferred rest best maxScore
    else
      let score : Int := strength_score preferred a.strengths
      if 0 < score ∧ maxScore < score then
        select_loop now preferred rest (some a) score
      else if 0 < score ∧ score = maxScore then
        match best with
        | some b =>
          if b.rate_limit_rpm < a.rate_limit_rpm then
            select_loop now preferred rest (some a) maxScore
          else
            select_loop now preferred rest best maxScore
        | none => select_loop now preferred rest best maxScore
      else select_loop now preferred rest best maxScore

/-- `ModelRouter.select_model`: look up the task profile (logs a warning and
returns `None` when the task is unknown — the router-level `UnknownTask`
signal), short-circuit on empty preferred strengths, then run the selection
loop from `best_model = None`, `max_score = -1`. -/
def select_model (adapters : List AdapterInfo) (task_name : String) (now : ℚ) :
    Option AdapterInfo :=
  match lookup_profile task_name with
  | none => none
  | some preferred =>
    if preferred.isEmpty then none
    else (select_loop now preferred adapters none (-1)).1

/-! ## Orchestrator quota tracking and the command dispatcher (`main.py`, `brain.py`, `config.py`) -/

/-- `config.py` rate-limit constants for Gemini 1.5 Flash. -/
def GEMINI_1_5_FLASH_RPM : Nat := 15

def GEMINI_1_5_FLASH_TPM : Nat := 1000000

def GEMINI_1_5_FLASH_RPD : Nat := 1500

/-- `self.pending_confirmation`, the dict built by `_trigger_fallback_handler`:
`{"type": ..., "original_input": ..., "prompt": ...}`.  The prompt text is the
fixed fallback question, carried by the `Message.fallbackPrompt` constructor,
so only the two data fields are stored here. -/
structure PendingConfirmation where
  conf_type : String
  original_input : String
deriving DecidableEq, Repr

/-- One `kb.log_interaction_details` append — the fields the claims observe.
`skill_choice = none` models a Python `None` skill choice being logged. -/
structure LogEntry where
  user_name : String
  user_input : String
  skill_choice : Option String
deriving DecidableEq, Repr

/-- The mutable `PraxisCore` state the dispatcher claims touch.
`skill_context_init` models `self.skill_context is not None`;
`interaction_log` the append-only `kb.log_interaction_details` store;
`skill_invocations` the append-only `kb.record_skill_invocation` store. -/
structure CoreState where
  ai_name : String
  current_user_name : String
  skill_context_init : Bool
  is_running : Bool
  request_timestamps_rpm : List ℚ
  token_usage_tpm : List (ℚ × Nat)
  daily_request_count : Nat
  current_day_for_rpd : Int
  pending_confirmation : Option PendingConfirmation
  interaction_log : List LogEntry
  skill_invocations : List (String × Bool)
deriving DecidableEq, Repr

/-- `_clean_old_metrics`: drop RPM timestamps and TPM entries strictly older
than one minute (`< now - 60`; note the strict comparison, unlike the
adapter-side tracker). -/
def clean_old_metrics (s : CoreState) (now : ℚ) : CoreState :=
  { s with
    request_timestamps_rpm :=
      s.request_timestamps_rpm.dropWhile (fun ts => decide (ts < now - 60))
    token_usage_tpm :=
      s.token_usage_tpm.dropWhile (fun e => decide (e.1 < now - 60)) }

/-- `_reset_daily_metrics_if_new_day`. -/
def reset_daily_metrics_if_new_day (s : CoreState) (today_utc : Int) : CoreState :=
  if s.current_day_for_rpd < today_utc then
    { s with daily_request_count := 0, current_day_for_rpd := today_utc }
  else s

/-- The reason strings of `_can_make_request`, structured: each constructor
carries the ceiling and the current figure that the source interpolates into
its f-string (`"RPM limit ({...}) reached. Current: {...}"`, and the RPD
analogue). -/
inductive BlockReason
  | rpmLimit (limit current : Nat)
  | rpdLimit (limit current : Nat)
deriving DecidableEq, Repr

/-- Whether a block reason cites the configured RPM ceiling. -/
def BlockReason.cites_rpm_ceiling : BlockReason → Bool
  | .rpmLimit l _ => l == GEMINI_1_5_FLASH_RPM
  | _ => false

/-- Whether a block reason cites the configured RPD ceiling. -/
def BlockReason.cites_rpd_ceiling : BlockReason → Bool
  | .rpdLimit l _ => l == GEMINI_1_5_FLASH_RPD
  | _ => false

/-- `_can_make_request`: clean, then the RPM-count check, then the RPD
check; TPM is not pre-checked (it stays a comment in the source).  Returns
the cleaned state and the blocking reason — `none` models `(True, "OK")`. -/
def can_make_request (s : CoreState) (now : ℚ) : CoreState × Option BlockReason :=
  let s := clean_old_metrics s now
  let current_rpm := s.request_timestamps_rpm.length
  if GEMINI_1_5_FLASH_RPM ≤ current_rpm then
    (s, some (.rpmLimit GEMINI_1_5_FLASH_RPM current_rpm))
  else if GEMINI_1_5_FLASH_RPD ≤ s.daily_request_count then
    (s, some (.rpdLimit GEMINI_1_5_FLASH_RPD s.daily_request_count))
  else (s, none)

/-- `_record_api_usage`: append the request timestamp, bump the daily count,
append a TPM entry only when the token total is positive, then clean. -/
def record_api_usage (s : CoreState) (now : ℚ) (prompt_tokens response_tokens : Nat) :
    CoreState :=
  let s1 := { s with
    request_timestamps_rpm := s.request_timestamps_rpm ++ [now],
    daily_request_count := s.daily_request_count + 1 }
  let s2 := if 0 < prompt_tokens + response_tokens then
      { s1 with token_usage_tpm := s1.token_usage_tpm ++ [(now, prompt_tokens + response_tokens)] }
    else s1
  clean_old_metrics s2 now

/-- `get_current_rpm`: clean, then the rolling request count. -/
def get_current_rpm (s : CoreState) (now : ℚ) : Nat :=
  (clean_old_metrics s now).request_timestamps_rpm.length

/-- `get_current_tpm`: clean, then sum the rolling token window. -/
def get_current_tpm (s : CoreState) (now : ℚ) : Nat :=
  ((clean_old_metrics s now).token_usage_tpm.map Prod.snd).sum

/-- The spoken messages of the reachable dispatcher and confirmation paths.
The interpolated data is carried as constructor arguments; the surrounding
fixed message text is abstracted into the constructor name.
`criticalError` is the message of the generic `except Exception` handler at
the end of `process_command_text` (main.py:754-757). -/
inductive Message
  | notInitialized
  | goodbye
  | rateLimited (reason : BlockReason)
  | criticalError
  | fallbackPrompt
  | webSearchUnavailable
  | webSearchDeclined
deriving DecidableEq, Repr

/-- The externally observable actions of one dispatcher or confirmation
call, in order: spoken output, the LLM adapter call, a skill handler
invocation, and the clearing of the pending confirmation.  (`adapterCall`
is kept so absence of adapter work is statable; on the current code no
dispatcher turn reaches the adapter.) -/
inductive Action
  | speak (m : Message)
  | adapterCall
  | invokeSkill (name : String)
  | clearPending
deriving DecidableEq, Repr

/-- Python `str.lower()` for the ASCII range, per character. -/
def lower_char (c : Char) : Char :=
  if 65 ≤ c.toNat ∧ c.toNat ≤ 90 then Char.ofNat (c.toNat + 32) else c

/-- Python `str.lower()` (the inputs the dispatcher lowercases are ASCII). -/
def py_lower (s : String) : String := ⟨s.data.map lower_char⟩

/-- Python `str.startswith(pre)`. -/
def py_startswith (s pre : String) : Bool := pre.data.isPrefixOf s.data

/-- The ASCII whitespace `str.strip()` removes. -/
def is_space_char (c : Char) : Bool := c = ' ' ∨ c = '\t' ∨ c = '\n' ∨ c = '\r'

/-- Python `str.strip()`: drop leading and trailing whitespace. -/
def py_strip (s : String) : String :=
  ⟨((s.data.dropWhile is_space_char).reverse.dropWhile is_space_char).reverse⟩

/-- Python slicing `s[n:]` by characters. -/
def py_drop (s : String) (n : Nat) : String := ⟨s.data.drop n⟩

def wake_words : List String :=
  ["codex", "hey codex", "okay codex", "jarvis", "praxis", "hey praxis", "okay praxis"]

/-- `brain.strip_wake_words`: case-insensitive prefix match against the wake
word list; on the first match the original text after the wake word is
stripped of outer whitespace, otherwise the whole input is stripped. -/
def strip_wake_words (command : String) : String × Bool :=
  match wake_words.find? (fun w => py_startswith (py_lower command) w) with
  | some w => (py_strip (py_drop command w.data.length), true)
  | none => (py_strip command, false)

/-- The exit test of `process_command_text`: `user_input.lower() in
["exit", "quit", "goodbye", f"goodbye {self.ai_name.lower().strip()}"]`. -/
def is_exit_phrase (ai_name user_input : String) : Bool :=
  ["exit", "quit", "goodbye", "goodbye " ++ py_strip (py_lower ai_name)].contains
    (py_lower user_input)

/-- The dict stored by `_trigger_fallback_handler`. -/
def fallback_prompt_conf (original_input : String) : PendingConfirmation :=
  { conf_type := "web_search_fallback", original_input := original_input }

/-- One `kb.log_interaction_details` append. -/
def add_interaction_log (s : CoreState) (user_input : String)
    (skill_choice : Option String) : CoreState :=
  { s with interaction_log := s.interaction_log ++
      [{ user_name := s.current_user_name, user_input := user_input,
         skill_choice := skill_choice }] }

/-- `_trigger_fallback_handler`: guard on the skill context, store the
PendingConfirmation, speak the fallback prompt, log the
`fallback_confirmation` interaction. -/
def trigger_fallback_handler (s : CoreState) (original_input : String) :
    CoreState × List Action :=
  if s.skill_context_init = false then (s, [])
  else
    let s1 := { s with pending_confirmation := some (fallback_prompt_conf original_input) }
    let s2 := add_interaction_log s1 original_input (some "fallback_confirmation")
    (s2, [.speak .fallbackPrompt])

/-- `PraxisCore.process_command_text`.  Beyond the state: the raw input,
the wall-clock time `now` and the UTC date `today_utc`.  The
initialization and empty-input guards, the exit phrases, the daily reset
and the quota gate follow the source (main.py:604-654).  A turn that
passes the gate then calls `brain.process_command_with_llm` with
`chat_session=` and `model=` keyword arguments (main.py:659-666) that the
signature of the imported function (brain.py:43-50: `command, llm_adapter,
available_skills_prompt_str, ai_name, user_sentiment`) rejects, so the
call raises `TypeError` at the call boundary on every such turn; the
generic `except Exception` at main.py:754 catches it and speaks the
critical-error message.  Everything below the call — `_record_api_usage`,
the skill-dispatch block, the built-in speak action, the fallback trigger
and the interaction-log write — is unreachable from this entry point and
is therefore absent from the model.  The sentiment classifier only shapes
prompt text and GUI status updates are display-only; neither is modelled.
Returns the new state and the emitted actions in order. -/
def process_command_text (s : CoreState) (user_input : String) (now : ℚ)
    (today_utc : Int) : CoreState × List Action :=
  if s.skill_context_init = false ∨ s.current_user_name = "" then
    (s, [.speak .notInitialized])
  else if user_input = "" then
    (s, [])
  else if is_exit_phrase s.ai_name user_input then
    ({ s with is_running := false }, [.speak .goodbye])
  else
    let s1 := reset_daily_metrics_if_new_day s today_utc
    let checked := can_make_request s1 now
    match checked.2 with
    | some reason => (checked.1, [.speak (.rateLimited reason)])
    | none => (checked.1, [.speak .criticalError])

/-- `PraxisCore.handle_gui_confirmation`: guard (`not pending or not
skill_context` → warn and return unchanged); otherwise read the stored type
and original input, CLEAR the pending confirmation, dispatch the fallback
branch, and log the confirmation response. -/
def handle_gui_confirmation (s : CoreState) (confirmed : Bool) (skills : List String) :
    CoreState × List Action :=
  match s.pending_confirmation, s.skill_context_init with
  | some conf, true =>
    let s1 := { s with pending_confirmation := none }
    let branch : CoreState × List Action :=
      if conf.conf_type = "web_search_fallback" then
        if confirmed then
          if "web_search" ∈ skills then
            (s1, [.invokeSkill "web_search"])
          else
            (s1, [.speak .webSearchUnavailable])
        else
          (s1, [.speak .webSearchDeclined])
      else (s1, [])
    let s2 := add_interaction_log branch.1
        ("Confirmation Response: " ++ (if confirmed then "Yes" else "No"))
        (some ("confirmation_handler_" ++ conf.conf_type))
    (s2, .clearPending :: branch.2)
  | _, _ => (s, [])

/-- A clean just-initialized session state shared by the concrete runs. -/
def base_state : CoreState :=
  { ai_name := "Praxis", current_user_name := "james", skill_context_init := true,
    is_running := true, request_timestamps_rpm := [], token_usage_tpm := [],
    daily_request_count := 0, current_day_for_rpd := 0,
    pending_confirmation := none, interaction_log := [], skill_invocations := [] }

/-- `base_state` with a stored fallback confirmation awaiting resolution. -/
def pending_state : CoreState :=
  { base_state with pending_confirmation := some (fallback_prompt_conf "earlier question") }

/-- A state whose rolling RPM window is at the configured ceiling. -/
def blocked_rpm_state : CoreState :=
  { base_state with request_timestamps_rpm := List.replicate 15 0 }

/-! ### Claim C9 -/

def prune_rpm (l : List ℚ) (now : ℚ) : List ℚ :=
  l.dropWhile (fun ts => decide (ts < now - 60))

def prune_tpm (l : List (ℚ × Nat)) (now : ℚ) : List (ℚ × Nat) :=
  l.dropWhile (fun e => decide (e.1 < now - 60))

/-- A state holding one TPM entry that has aged out of the rolling minute. -/
def stale_tpm_state : CoreState :=
  { base_state with token_usage_tpm := [(0, 5)] }

/-! ### List-level helper lemmas -/

theorem dropWhile_idem {α : Type} (p : α → Bool) (l : List α) :
    (l.dropWhile p).dropWhile p = l.dropWhile p := by
  induction l with
  | nil => rfl
  | cons x xs ih =>
    by_cases hx : p x
    · simp [List.dropWhile_cons, hx, ih]
    · simp [List.dropWhile_cons, hx]

theorem dropWhile_head_false {α : Type} {p : α → Bool} {l : List α} {x : α} {xs : List α}
    (h : l.dropWhile p = x :: xs) : p x = false := by
  induction l with
  | nil => simp at h
  | cons y ys ih =>
    by_cases hy : p y
    · exact ih (by simpa [List.dropWhile_cons, hy] using h)
    · rw [List.dropWhile_cons_of_neg hy] at h
      cases h
      exact Bool.of_not_eq_true hy

/-- On a `≤`-sorted list, dropping the prefix of entries `≤ a` is the same as
filtering for entries `> a`. -/
theorem sorted_dropWhile_le (a : ℚ) :
    ∀ l : List ℚ, l.Sorted (· ≤ ·) →
      l.dropWhile (fun ts => decide (ts ≤ a)) = l.filter (fun ts => decide (a < ts)) := by
  intro l
  induction l with
  | nil => intro _; rfl
  | cons x xs ih =>
    intro hs
    rw [List.sorted_cons] at hs
    by_cases hx : x ≤ a
    · rw [List.dropWhile_cons_of_pos (by simpa using hx),
        List.filter_cons_of_neg (by simpa using not_lt.mpr hx), ih hs.2]
    · have hax : a < x := not_le.mp hx
      rw [List.dropWhile_cons_of_neg (by simpa using hx),
        List.filter_cons_of_pos (by simpa using hax),
        List.filter_eq_self.mpr fun b hb => by
          simpa using lt_of_lt_of_le hax (hs.1 b hb)]

theorem prune_old_eq_filter {l : List ℚ} (now : ℚ) (h : l.Sorted (· ≤ ·)) :
    prune_old l now = l.filter (fun ts => decide (now - 60 < ts)) :=
  sorted_dropWhile_le (now - 60) l h

theorem recordAll_limit (ts : List ℚ) : ∀ t : RateLimitTracker, (recordAll t ts).limit = t.limit := by
  induction ts with
  | nil => intro t; rfl
  | cons x xs ih =>
    intro t
    simpa [recordAll, List.foldl_cons] using ih (t.add_request_timestamp x)

/-- After a sorted sequence of `record` calls ending at `tLast`, the stored
queue is the whole history filtered to the trailing window at `tLast`. -/
theorem recordAll_requests (tLast : ℚ) :
    ∀ (ts : List ℚ) (lim : Option Nat) (reqs : List ℚ),
      (reqs ++ ts ++ [tLast]).Sorted (· ≤ ·) →
      (recordAll ⟨lim, reqs⟩ (ts ++ [tLast])).requests
        = (reqs ++ ts ++ [tLast]).filter (fun x => decide (tLast - 60 < x)) := by
  intro ts
  induction ts with
  | nil =>
    intro lim reqs hs
    simp only [List.nil_append, List.append_nil] at hs ⊢
    show (RateLimitTracker.add_request_timestamp ⟨lim, reqs⟩ tLast).requests = _
    simpa [RateLimitTracker.add_request_timestamp] using prune_old_eq_filter tLast hs
  | cons x ts ih =>
    intro lim reqs hs
    simp only [List.cons_append, List.append_assoc] at hs ⊢
    have hparts := List.pairwise_append.mp hs
    have hcross : ∀ u ∈ reqs, ∀ v ∈ x :: (ts ++ [tLast]), u ≤ v := hparts.2.2
    have hxrest := List.pairwise_cons.mp hparts.2.1
    have hxle : ∀ v ∈ ts ++ [tLast], x ≤ v := hxrest.1
    have hxLast : x ≤ tLast := hxle tLast (by simp)
    have hsx : (reqs ++ [x]).Pairwise (· ≤ ·) := by
      rw [List.pairwise_append]
      refine ⟨hparts.1, List.pairwise_singleton _ _, ?_⟩
      intro u hu v hv
      have hv2 : v = x := by simpa using hv
      rw [hv2]
      exact hcross u hu x (by simp)
    have hstep : recordAll (⟨lim, reqs⟩ : RateLimitTracker) (x :: (ts ++ [tLast]))
        = recordAll ⟨lim, prune_old (reqs ++ [x]) x⟩ (ts ++ [tLast]) := by
      simp [recordAll, RateLimitTracker.add_request_timestamp]
    have hreqs2 : prune_old (reqs ++ [x]) x
        = (reqs ++ [x]).filter (fun u => decide (x - 60 < u)) :=
      prune_old_eq_filter x hsx
    have hmem : ∀ u ∈ (reqs ++ [x]).filter (fun u => decide (x - 60 < u)), u ∈ reqs ++ [x] :=
      fun u hu => List.mem_of_mem_filter hu
    have hs2 : ((reqs ++ [x]).filter (fun u => decide (x - 60 < u))
        ++ (ts ++ [tLast])).Pairwise (· ≤ ·) := by
      rw [List.pairwise_append]
      refine ⟨List.Pairwise.filter _ hsx, hxrest.2, ?_⟩
      intro u hu v hv
      rcases List.mem_append.mp (hmem u hu) with h1 | h1
      · exact hcross u h1 v (List.mem_cons_of_mem x hv)
      · have h2 : u = x := by simpa using h1
        subst h2
        exact hxle v hv
    have hfilter2 : ∀ u : ℚ,
        (decide (tLast - 60 < u) && decide (x - 60 < u)) = decide (tLast - 60 < u) := by
      intro u
      by_cases h : tLast - 60 < u
      · have hx2 : x - 60 < u := lt_of_le_of_lt (by linarith) h
        simp [h, hx2]
      · simp [h]
    have hihres := ih lim ((reqs ++ [x]).filter (fun u => decide (x - 60 < u)))
      (by simpa [List.append_assoc] using hs2)
    rw [hstep, hreqs2, hihres, List.append_assoc, List.filter_append, List.filter_filter]
    simp only [hfilter2]
    rw [← List.filter_append]
    congr 1
    simp

theorem RateLimitTracker.eq_of (t : RateLimitTracker) {l : Option Nat} {r : List ℚ}
    (h1 : t.limit = l) (h2 : t.requests = r) : t = ⟨l, r⟩ := by
  cases t
  cases h1
  cases h2
  rfl

/-! ### Claim C6 -/

/-- **C6** — for every cap `c > 0`, after `c` `record` calls whose timestamps
all lie inside one trailing 60-second window (each strictly within 60s of the
last call), `is_limit_exceeded` at the time of the last call is true; once a
full 60-second window elapses after the last record with no further calls, it
is false again; and a tracker built with cap `≤ 0` (the `float('inf')` case)
never reports exceeded. -/
theorem rate_limit_tracker_cap_spec :
    (∀ (rate_limit_rpm : Int) (ts : List ℚ) (tLast now2 : ℚ),
      0 < rate_limit_rpm →
      (ts ++ [tLast]).Sorted (· ≤ ·) →
      (ts ++ [tLast]).length = rate_limit_rpm.toNat →
      (∀ x ∈ ts ++ [tLast], tLast - x < 60) →
      tLast + 60 ≤ now2 →
      (recordAll (RateLimitTracker.init rate_limit_rpm) (ts ++ [tLast])).is_limit_exceeded tLast
          = true ∧
      (recordAll (RateLimitTracker.init rate_limit_rpm) (ts ++ [tLast])).is_limit_exceeded now2
          = false) ∧
    (∀ (rate_limit_rpm : Int) (ts : List ℚ) (now : ℚ),
      rate_limit_rpm ≤ 0 →
      (recordAll (RateLimitTracker.init rate_limit_rpm) ts).is_limit_exceeded now = false) := by
  constructor
  · intro rpm ts tLast now2 hrpm hsorted hlen hspan hnow2
    have hinit : RateLimitTracker.init rpm = ⟨some rpm.toNat, []⟩ := by
      simp [RateLimitTracker.init, not_le.mpr hrpm]
    have hall : (ts ++ [tLast]).filter (fun x => decide (tLast - 60 < x)) = ts ++ [tLast] :=
      List.filter_eq_self.mpr fun x hx => by
        have := hspan x hx
        simpa using by linarith
    have hreq : (recordAll (RateLimitTracker.init rpm) (ts ++ [tLast])).requests
        = ts ++ [tLast] := by
      rw [hinit]
      refine Eq.trans ?_ hall
      simpa using recordAll_requests tLast ts (some rpm.toNat) [] (by simpa using hsorted)
    have hlim : (recordAll (RateLimitTracker.init rpm) (ts ++ [tLast])).limit
        = some rpm.toNat := by
      rw [recordAll_limit, hinit]
    have hT := (recordAll (RateLimitTracker.init rpm) (ts ++ [tLast])).eq_of hlim hreq
    have hpos : 0 < rpm.toNat := by omega
    constructor
    · have hprune : prune_old (ts ++ [tLast]) tLast = ts ++ [tLast] := by
        rw [prune_old_eq_filter tLast hsorted]
        exact hall
      rw [hT]
      simp [RateLimitTracker.is_limit_exceeded, hprune, hlen]
    · have hprune2 : prune_old (ts ++ [tLast]) now2 = [] := by
        rw [prune_old, List.dropWhile_eq_nil_iff]
        intro x hx
        have hxle : x ≤ tLast := by
          rcases List.mem_append.mp hx with h | h
          · exact (List.pairwise_append.mp hsorted).2.2 x h tLast (by simp)
          · have hx2 : x = tLast := by simpa using h
            simp [hx2]
        simpa using by linarith
      rw [hT]
      simp [RateLimitTracker.is_limit_exceeded, hprune2]
      omega
  · intro rpm ts now hle
    have hinit : RateLimitTracker.init rpm = ⟨none, []⟩ := by
      simp [RateLimitTracker.init, hle]
    have hlim : (recordAll (RateLimitTracker.init rpm) ts).limit = none := by
      rw [recordAll_limit, hinit]
    rcases hE : recordAll (RateLimitTracker.init rpm) ts with ⟨l, r⟩
    rw [hE] at hlim
    simp at hlim
    rw [hlim]
    simp [RateLimitTracker.is_limit_exceeded]

theorem rate_limit_tracker_cap_spec_witness :
    (recordAll (RateLimitTracker.init 2) ([0] ++ [1])).is_limit_exceeded 1 = true ∧
    (recordAll (RateLimitTracker.init 2) ([0] ++ [1])).is_limit_exceeded 61 = false :=
  rate_limit_tracker_cap_spec.1 2 [0] 1 61 (by norm_num)
    (by norm_num [List.sorted_cons])
    (by rfl)
    (by intro x hx; fin_cases hx <;> norm_num)
    (by norm_num)

/-! ### Claim C7 -/

/-- **C7 counterexample** — as stated, the monotonic-decrease clause of the
claim fails: with cap 1 and two `record` calls at 0 and 59 (a state built by
`record` alone, since `record` never blocks), the pruned count exceeds the
cap, and as time advances with no intervening record the wait time GROWS from
1 at time 59 to 59 at time 60, because pruning promotes a fresher timestamp
to the head of the queue. -/
theorem get_wait_time_monotone_cex :
    ((59 : ℚ) ≤ 60) ∧
    (recordAll (RateLimitTracker.init 1) [0, 59]).get_wait_time 59 = 1 ∧
    (recordAll (RateLimitTracker.init 1) [0, 59]).get_wait_time 60 = 59 ∧
    ¬ ((recordAll (RateLimitTracker.init 1) [0, 59]).get_wait_time 60
        ≤ (recordAll (RateLimitTracker.init 1) [0, 59]).get_wait_time 59) := by
  refine ⟨by norm_num, ?_, ?_, ?_⟩ <;>
    · simp only [recordAll, RateLimitTracker.init, RateLimitTracker.add_request_timestamp,
        RateLimitTracker.get_wait_time, prune_old, List.foldl_cons, List.foldl_nil]
      norm_num [List.dropWhile]

/-- **C7 (amended)** — `get_wait_time` returns 0 when the pruned count is
under the cap and otherwise `(oldest + 60) − now` clamped to `≥ 0`; it is
always `≥ 0`; it is `0` exactly when `is_limit_exceeded` is false (for any
tracker whose stored cap is positive, as `init` guarantees); and it
decreases monotonically toward 0 as time advances with no intervening
record PROVIDED the tracker holds at most `cap` timestamps — the situation
single-threaded cooperative throttling maintains.  Unrestricted
monotonicity is refuted by `get_wait_time_monotone_cex`. -/
theorem get_wait_time_spec :
    (∀ (t : RateLimitTracker) (now : ℚ), t.limit = none → t.get_wait_time now = 0) ∧
    (∀ (t : RateLimitTracker) (now : ℚ) (c : Nat), t.limit = some c →
      ((prune_old t.requests now).length < c → t.get_wait_time now = 0) ∧
      (∀ oldest rest, prune_old t.requests now = oldest :: rest →
        c ≤ (oldest :: rest).length →
        t.get_wait_time now = max 0 (oldest + 60 - now))) ∧
    (∀ (t : RateLimitTracker) (now : ℚ), 0 ≤ t.get_wait_time now) ∧
    (∀ (t : RateLimitTracker) (now : ℚ), (∀ c, t.limit = some c → 0 < c) →
      (t.get_wait_time now = 0 ↔ t.is_limit_exceeded now = false)) ∧
    (∀ (t : RateLimitTracker) (now now2 : ℚ), (∀ c, t.limit = some c → 0 < c) →
      t.requests.Sorted (· ≤ ·) →
      (∀ c, t.limit = some c → t.requests.length ≤ c) →
      now ≤ now2 →
      t.get_wait_time now2 ≤ t.get_wait_time now) := by
  refine ⟨?_, ?_, ?_, ?_, ?_⟩
  · rintro ⟨lim, reqs⟩ now hl
    simp at hl
    rw [hl]
    simp [RateLimitTracker.get_wait_time]
  · rintro ⟨lim, reqs⟩ now c hl
    simp at hl
    rw [hl]
    constructor
    · intro hlt
      change (prune_old reqs now).length < c at hlt
      simp [RateLimitTracker.get_wait_time, hlt]
    · intro oldest rest heq hlen
      change prune_old reqs now = oldest :: rest at heq
      have hnl : ¬ ((prune_old reqs now).length < c) := by
        rw [heq]
        exact Nat.not_lt.mpr hlen
      simp only [RateLimitTracker.get_wait_time]
      rw [if_neg hnl, heq]
  · rintro ⟨lim, reqs⟩ now
    cases lim with
    | none => simp [RateLimitTracker.get_wait_time]
    | some c =>
      simp only [RateLimitTracker.get_wait_time]
      split
      · exact le_refl 0
      · split
        · exact le_refl 0
        · exact le_max_left 0 _
  · rintro ⟨lim, reqs⟩ now hwf
    cases lim with
    | none => simp [RateLimitTracker.get_wait_time, RateLimitTracker.is_limit_exceeded]
    | some c =>
      have hc : 0 < c := hwf c rfl
      simp only [RateLimitTracker.get_wait_time, RateLimitTracker.is_limit_exceeded]
      by_cases hlt : (prune_old reqs now).length < c
      · simp [hlt, Nat.not_le.mpr hlt]
      · have hle : c ≤ (prune_old reqs now).length := Nat.not_lt.mp hlt
        rcases hE : prune_old reqs now with _ | ⟨o, rest⟩
        · rw [hE] at hle
          simp at hle
          omega
        · rw [hE] at hle hlt
          rw [if_neg hlt]
          have hE2 : reqs.dropWhile (fun ts => decide (ts ≤ now - 60)) = o :: rest := hE
          have hnow : now - 60 < o := by
            have hhead := dropWhile_head_false hE2
            simp at hhead
            linarith
          show max 0 (o + 60 - now) = 0 ↔ decide (c ≤ (o :: rest).length) = false
          have hmax : max 0 (o + 60 - now) = o + 60 - now := max_eq_right (by linarith)
          rw [hmax, decide_eq_true hle]
          constructor
          · intro h0
            exfalso
            linarith
          · intro hfalse
            simp at hfalse
  · rintro ⟨lim, reqs⟩ now now2 hwf hsort hcap hle
    cases lim with
    | none => simp [RateLimitTracker.get_wait_time]
    | some c =>
      have hc : 0 < c := hwf c rfl
      have hcap2 : reqs.length ≤ c := by
        have := hcap c rfl
        simpa using this
      have hsort2 : reqs.Sorted (· ≤ ·) := hsort
      have hf1 : prune_old reqs now = reqs.filter (fun u => decide (now - 60 < u)) :=
        prune_old_eq_filter now hsort2
      have hf2 : prune_old reqs now2 = reqs.filter (fun u => decide (now2 - 60 < u)) :=
        prune_old_eq_filter now2 hsort2
      have hsub : List.Sublist (reqs.filter (fun u => decide (now2 - 60 < u)))
          (reqs.filter (fun u => decide (now - 60 < u))) :=
        List.monotone_filter_right reqs (fun a ha => by
          simp at ha ⊢
          linarith)
      simp only [RateLimitTracker.get_wait_time, hf1, hf2]
      by_cases h1 : (reqs.filter (fun u => decide (now - 60 < u))).length < c
      · have h2 : (reqs.filter (fun u => decide (now2 - 60 < u))).length < c :=
          lt_of_le_of_lt hsub.length_le h1
        rw [if_pos h1, if_pos h2]
      · have hlen1 : (reqs.filter (fun u => decide (now - 60 < u))).length ≤ reqs.length :=
          (List.filter_sublist reqs).length_le
        have heq1 : (reqs.filter (fun u => decide (now - 60 < u))).length = c :=
          le_antisymm (le_trans hlen1 hcap2) (Nat.not_lt.mp h1)
        rcases hE : reqs.filter (fun u => decide (now - 60 < u)) with _ | ⟨o, rest⟩
        · rw [hE] at heq1
          simp at heq1
          omega
        · rw [hE] at h1 heq1 hsub
          rw [if_neg h1]
          by_cases h2 : (reqs.filter (fun u => decide (now2 - 60 < u))).length < c
          · rw [if_pos h2]
            exact le_max_left 0 _
          · have heq2 : (reqs.filter (fun u => decide (now2 - 60 < u))).length = c :=
              le_antisymm (le_trans hsub.length_le (le_of_eq heq1)) (Nat.not_lt.mp h2)
            have heqlist : reqs.filter (fun u => decide (now2 - 60 < u)) = o :: rest :=
              hsub.eq_of_length (heq2.trans heq1.symm)
            rw [if_neg h2, heqlist]
            exact max_le_max (le_refl 0) (by linarith)

theorem get_wait_time_spec_witness :
    RateLimitTracker.get_wait_time ⟨some 1, [0]⟩ 30
      ≤ RateLimitTracker.get_wait_time ⟨some 1, [0]⟩ 10 :=
  get_wait_time_spec.2.2.2.2 ⟨some 1, [0]⟩ 10 30
    (fun c hc => by simp at hc; omega)
    (by simp)
    (fun c hc => by simp at hc ⊢; omega)
    (by norm_num)

theorem retry_go_zero (outcomes : Nat → Except AdapterError String) (attempt : Nat) :
    retry_go outcomes attempt 0 = ⟨outcomes attempt, [], 1⟩ := rfl

theorem retry_go_succ_ok (outcomes : Nat → Except AdapterError String) (attempt r : Nat)
    (s : String) (h : outcomes attempt = .ok s) :
    retry_go outcomes attempt (r + 1) = ⟨.ok s, [], 1⟩ := by
  unfold retry_go
  rw [h]

theorem retry_go_succ_error_nr (outcomes : Nat → Except AdapterError String) (attempt r : Nat)
    (e : AdapterError) (h : outcomes attempt = .error e) (hr : e.retriable = false) :
    retry_go outcomes attempt (r + 1) = ⟨.error e, [], 1⟩ := by
  unfold retry_go
  rw [h]
  simp [hr]

theorem retry_go_succ_error_r (outcomes : Nat → Except AdapterError String) (attempt r : Nat)
    (e : AdapterError) (h : outcomes attempt = .error e) (hr : e.retriable = true) :
    retry_go outcomes attempt (r + 1)
      = ⟨(retry_go outcomes (attempt + 1) r).outcome,
         wait_exponential attempt :: (retry_go outcomes (attempt + 1) r).sleeps,
         (retry_go outcomes (attempt + 1) r).attempts + 1⟩ := by
  conv_lhs => unfold retry_go
  rw [h]
  simp [hr]

/-! ### Claim C3 -/

/-- **C3** — a failure classified RateLimited (`APIRateLimitError`) or
Unavailable (`APIConnectionError`) is retried up to 2 additional attempts
(3 attempts total) with the exponential backoff schedule
`max(1, min(2^n, 10))` — base 1 second, capped at 10 seconds — while a
failure of any other kind (blocked prompt, not-ready, unexpected) propagates
to the caller immediately with no retry; a call that succeeds on attempt 1
performs no backoff sleep at all. -/
theorem retry_policy_spec (outcomes : Nat → Except AdapterError String) :
    (∀ s, outcomes 1 = .ok s → perform_api_call outcomes = ⟨.ok s, [], 1⟩) ∧
    (∀ e, outcomes 1 = .error e → e.retriable = false →
      perform_api_call outcomes = ⟨.error e, [], 1⟩) ∧
    (perform_api_call outcomes).attempts ≤ 3 ∧
    ((perform_api_call outcomes).sleeps
      = (List.range ((perform_api_call outcomes).attempts - 1)).map
          (fun i => wait_exponential (i + 1))) ∧
    (∀ w ∈ (perform_api_call outcomes).sleeps, 1 ≤ w ∧ w ≤ 10) ∧
    (∀ e1 e2, outcomes 1 = .error e1 → e1.retriable = true →
      outcomes 2 = .error e2 → e2.retriable = true →
      (perform_api_call outcomes).attempts = 3 ∧
      (perform_api_call outcomes).outcome = outcomes 3) := by
  have hw : ∀ n : Nat, 1 ≤ wait_exponential n ∧ wait_exponential n ≤ 10 := by
    intro n
    constructor
    · exact le_trans (by norm_num : (1:ℚ) ≤ max 0 1) (le_max_left _ _)
    · exact max_le (by norm_num) (min_le_right _ _)
  rcases h1 : outcomes 1 with e1 | s1
  · by_cases hr1 : e1.retriable
    · rcases h2 : outcomes 2 with e2 | s2
      · by_cases hr2 : e2.retriable
        · have hval : perform_api_call outcomes
              = ⟨outcomes 3, [wait_exponential 1, wait_exponential 2], 3⟩ := by
            have ha := retry_go_succ_error_r outcomes 1 1 e1 h1 hr1
            have hb := retry_go_succ_error_r outcomes 2 0 e2 h2 hr2
            have hc := retry_go_zero outcomes 3
            unfold perform_api_call
            norm_num at ha hb hc
            rw [ha, hb, hc]
          refine ⟨?_, ?_, ?_, ?_, ?_, ?_⟩
          · intro s hs
            exact absurd hs (by simp)
          · intro e he her
            injection he with he
            rw [← he] at her
            rw [her] at hr1
            exact absurd hr1 (by simp)
          · simp [hval]
          · simp [hval, List.range_succ]
          · simp [hval]
            exact ⟨hw 1, hw 2⟩
          · intro a b ha hra hb hrb
            simp [hval]
        · have hval : perform_api_call outcomes
              = ⟨.error e2, [wait_exponential 1], 2⟩ := by
            have ha := retry_go_succ_error_r outcomes 1 1 e1 h1 hr1
            have hb := retry_go_succ_error_nr outcomes 2 0 e2 h2 (by simpa using hr2)
            unfold perform_api_call
            norm_num at ha hb
            rw [ha, hb]
          refine ⟨?_, ?_, ?_, ?_, ?_, ?_⟩
          · intro s hs
            exact absurd hs (by simp)
          · intro e he her
            injection he with he
            rw [← he] at her
            rw [her] at hr1
            exact absurd hr1 (by simp)
          · simp [hval]
          · simp [hval, List.range_succ]
          · simp [hval]
            exact hw 1
          · intro a b ha hra hb hrb
            injection hb with hb
            rw [← hb] at hrb
            exact absurd hrb hr2
      · have hval : perform_api_call outcomes = ⟨.ok s2, [wait_exponential 1], 2⟩ := by
          have ha := retry_go_succ_error_r outcomes 1 1 e1 h1 hr1
          have hb := retry_go_succ_ok outcomes 2 0 s2 h2
          unfold perform_api_call
          norm_num at ha hb
          rw [ha, hb]
        refine ⟨?_, ?_, ?_, ?_, ?_, ?_⟩
        · intro s hs
          exact absurd hs (by simp)
        · intro e he her
          injection he with he
          rw [← he] at her
          rw [her] at hr1
          exact absurd hr1 (by simp)
        · simp [hval]
        · simp [hval, List.range_succ]
        · simp [hval]
          exact hw 1
        · intro a b ha hra hb hrb
          exact absurd hb (by simp)
    · have hval : perform_api_call outcomes = ⟨.error e1, [], 1⟩ := by
        have h := retry_go_succ_error_nr outcomes 1 1 e1 h1 (by simpa using hr1)
        unfold perform_api_call
        norm_num at h
        exact h
      refine ⟨?_, ?_, ?_, ?_, ?_, ?_⟩
      · intro s hs
        exact absurd hs (by simp)
      · intro e he her
        injection he with he
        rw [hval, he]
      · simp [hval]
      · simp [hval]
      · simp [hval]
      · intro a b ha hra hb hrb
        injection ha with ha
        rw [← ha] at hra
        exact absurd hra hr1
  · have hval : perform_api_call outcomes = ⟨.ok s1, [], 1⟩ := by
      have h := retry_go_succ_ok outcomes 1 1 s1 h1
      unfold perform_api_call
      norm_num at h
      exact h
    refine ⟨?_, ?_, ?_, ?_, ?_, ?_⟩
    · intro s hs
      injection hs with hs
      rw [hval, hs]
    · intro e he
      exact absurd he (by simp)
    · simp [hval]
    · simp [hval]
    · simp [hval]
    · intro a b hab
      exact absurd hab (by simp)

theorem retry_policy_spec_witness :
    perform_api_call ok_outcomes = ⟨.ok "hi", [], 1⟩ :=
  (retry_policy_spec ok_outcomes).1 "hi" rfl

/-- **C4 counterexample** — a `generate` call that reaches the provider three
times (two `Unavailable` failures, then success) invokes the tracker record
operation ONCE, not three times; and a call whose every attempt fails
records NOTHING, not three timestamps.  The record operation runs once per
successful `generate`, not once per provider attempt. -/
theorem record_per_attempt_cex :
    (generate (RateLimitTracker.init 5) 0 three_attempt_outcomes).provider_attempts = 3 ∧
    (generate (RateLimitTracker.init 5) 0 three_attempt_outcomes).record_calls = 1 ∧
    (generate (RateLimitTracker.init 5) 0 always_fail_outcomes).provider_attempts = 3 ∧
    (generate (RateLimitTracker.init 5) 0 always_fail_outcomes).record_calls = 0 := by
  refine ⟨rfl, rfl, rfl, rfl⟩

/-- **C4 (amended)** — during one adapter `generate` call the tracker record
operation is invoked exactly once when the retry-wrapped API call ultimately
succeeds — after the final attempt — and never when every attempt fails (the
exception propagates before the record line); the locally-blocked
cooperative-throttle wait records nothing, and on failure the tracker state
is returned untouched. -/
theorem generate_record_spec (t : RateLimitTracker) (now : ℚ)
    (outcomes : Nat → Except AdapterError String) :
    ((generate t now outcomes).record_calls
      = match (generate t now outcomes).outcome with
        | .ok _ => 1
        | .error _ => 0) ∧
    ((generate t now outcomes).outcome = (perform_api_call outcomes).outcome) ∧
    ((generate t now outcomes).tracker
      = match (perform_api_call outcomes).outcome with
        | .ok _ => t.add_request_timestamp
            (throttle_loop t (t.requests.length + 1) now
              + (perform_api_call outcomes).sleeps.sum)
        | .error _ => t) ∧
    ((generate t now outcomes).provider_attempts = (perform_api_call outcomes).attempts) := by
  simp only [generate]
  rcases hO : (perform_api_call outcomes).outcome with s | e <;> simp [hO]

/-- The loop invariant of `select_loop`: starting from a valid accumulator,
the final best adapter is valid (not rate limited, positive score equal to
the final max), the max never decreases, the carried best is dominated by
the final best, the final best comes from the accumulator or the list, every
non-limited positive-scoring candidate scores at most the final max, and
every non-limited candidate achieving the final max has rpm at most the
final best rpm. -/
theorem select_loop_invariant (now : ℚ) (preferred : List String) :
    ∀ (l : List AdapterInfo) (best : Option AdapterInfo) (maxScore : Int),
      ((best = none ∧ maxScore = -1) ∨
       (∃ b, best = some b ∧ b.isRateLimited now = false ∧
          (strength_score preferred b.strengths : Int) = maxScore ∧ 0 < maxScore)) →
      (((select_loop now preferred l best maxScore).1 = none
          ∧ (select_loop now preferred l best maxScore).2 = -1) ∨
       (∃ b, (select_loop now preferred l best maxScore).1 = some b
          ∧ b.isRateLimited now = false
          ∧ (strength_score preferred b.strengths : Int)
              = (select_loop now preferred l best maxScore).2
          ∧ 0 < (select_loop now preferred l best maxScore).2)) ∧
      (maxScore ≤ (select_loop now preferred l best maxScore).2) ∧
      (∀ b, best = some b →
        ∃ b2, (select_loop now preferred l best maxScore).1 = some b2
          ∧ ((strength_score preferred b.strengths : Int)
                = (select_loop now preferred l best maxScore).2
              → b.rate_limit_rpm ≤ b2.rate_limit_rpm)) ∧
      (∀ b2, (select_loop now preferred l best maxScore).1 = some b2 →
        best = some b2 ∨ b2 ∈ l) ∧
      (∀ c ∈ l, c.isRateLimited now = false → 0 < strength_score preferred c.strengths →
        (strength_score preferred c.strengths : Int)
          ≤ (select_loop now preferred l best maxScore).2) ∧
      (∀ c ∈ l, c.isRateLimited now = false →
        (strength_score preferred c.strengths : Int)
            = (select_loop now preferred l best maxScore).2 →
        ∀ b2, (select_loop now preferred l best maxScore).1 = some b2 →
          c.rate_limit_rpm ≤ b2.rate_limit_rpm) := by
  intro l
  induction l with
  | nil =>
    intro best maxScore hacc
    simp only [select_loop]
    refine ⟨hacc, le_refl _, ?_, ?_, ?_, ?_⟩
    · intro b hb
      exact ⟨b, hb, fun _ => le_refl _⟩
    · intro b2 hb2
      exact Or.inl hb2
    · intro c hc
      exact absurd hc (List.not_mem_nil c)
    · intro c hc
      exact absurd hc (List.not_mem_nil c)
  | cons a rest ih =>
    intro best maxScore hacc
    by_cases hlim : a.isRateLimited now = true
    · have hsl : select_loop now preferred (a :: rest) best maxScore
          = select_loop now preferred rest best maxScore := by
        simp [select_loop, hlim]
      rw [hsl]
      obtain ⟨hV, hM, hC, hMem, hD1, hD2⟩ := ih best maxScore hacc
      refine ⟨hV, hM, hC, ?_, ?_, ?_⟩
      · intro b2 hb2
        rcases hMem b2 hb2 with h | h
        · exact Or.inl h
        · exact Or.inr (List.mem_cons_of_mem a h)
      · intro c hc hcl hcs
        rcases List.mem_cons.mp hc with h | h
        · rw [h] at hcl
          rw [hcl] at hlim
          exact absurd hlim (by simp)
        · exact hD1 c h hcl hcs
      · intro c hc hcl hcs b2 hb2
        rcases List.mem_cons.mp hc with h | h
        · rw [h] at hcl
          rw [hcl] at hlim
          exact absurd hlim (by simp)
        · exact hD2 c h hcl hcs b2 hb2
    · have hlim2 : a.isRateLimited now = false := by simpa using hlim
      by_cases hgt : 0 < (strength_score preferred a.strengths : Int) ∧
          maxScore < (strength_score preferred a.strengths : Int)
      · -- strictly better score: a becomes the best
        have hsl : select_loop now preferred (a :: rest) best maxScore
            = select_loop now preferred rest (some a)
                (strength_score preferred a.strengths : Int) := by
          simp [select_loop, hlim, hgt]
        rw [hsl]
        obtain ⟨hV, hM, hC, hMem, hD1, hD2⟩ := ih (some a)
          (strength_score preferred a.strengths : Int)
          (Or.inr ⟨a, rfl, hlim2, rfl, hgt.1⟩)
        obtain ⟨b2a, hb2a, himpa⟩ := hC a rfl
        refine ⟨hV, le_trans (le_of_lt hgt.2) hM, ?_, ?_, ?_, ?_⟩
        · intro b hb
          refine ⟨b2a, hb2a, fun hbmax => ?_⟩
          exfalso
          rcases hacc with ⟨hbn, _⟩ | ⟨b0, hb0, _, hbs, _⟩
          · rw [hbn] at hb
            exact absurd hb (by simp)
          · rw [hb0] at hb
            injection hb with hb
            rw [hb] at hbs
            have h2 := hgt.2
            linarith [hbmax, hM]
        · intro b2 hb2
          rcases hMem b2 hb2 with h | h
          · injection h with h
            exact Or.inr (by rw [← h]; exact List.mem_cons_self a rest)
          · exact Or.inr (List.mem_cons_of_mem a h)
        · intro c hc hcl hcs
          rcases List.mem_cons.mp hc with h | h
          · rw [h]
            exact hM
          · exact hD1 c h hcl hcs
        · intro c hc hcl hcs b2 hb2
          rcases List.mem_cons.mp hc with h | h
          · have hsame : b2 = b2a := by
              have := hb2a.symm.trans hb2
              injection this with hx
              exact hx.symm
            rw [hsame]
            rw [h]
            rw [h] at hcs
            exact himpa hcs
          · exact hD2 c h hcl hcs b2 hb2
      · by_cases htie : 0 < (strength_score preferred a.strengths : Int) ∧
            (strength_score preferred a.strengths : Int) = maxScore
        · rcases hacc with ⟨hbn, hmn⟩ | ⟨b0, hb0, hbl0, hbs0, hbpos0⟩
          · exfalso
            have h1 := htie.1
            have h2 := htie.2
            rw [hmn] at h2
            linarith
          · subst hb0
            by_cases hrpm : b0.rate_limit_rpm < a.rate_limit_rpm
            · -- tie, strictly higher rpm: a replaces b0
              have hsl : select_loop now preferred (a :: rest) (some b0) maxScore
                  = select_loop now preferred rest (some a) maxScore := by
                simp only [select_loop]
                rw [if_neg hlim, if_neg hgt, if_pos htie]
                simp [hrpm]
              rw [hsl]
              obtain ⟨hV, hM, hC, hMem, hD1, hD2⟩ := ih (some a) maxScore
                (Or.inr ⟨a, rfl, hlim2, htie.2, hbpos0⟩)
              obtain ⟨b2a, hb2a, himpa⟩ := hC a rfl
              refine ⟨hV, hM, ?_, ?_, ?_, ?_⟩
              · intro b hb
                injection hb with hb
                refine ⟨b2a, hb2a, fun hbmax => ?_⟩
                have hsb : (strength_score preferred b.strengths : Int) = maxScore := by
                  rw [← hb]
                  exact hbs0
                rw [hsb] at hbmax
                have hsa : (strength_score preferred a.strengths : Int)
                    = (select_loop now preferred rest (some a) maxScore).2 := by
                  rw [htie.2]
                  exact hbmax
                rw [← hb]
                exact le_trans (le_of_lt hrpm) (himpa hsa)
              · intro b2 hb2
                rcases hMem b2 hb2 with h | h
                · injection h with h
                  exact Or.inr (by rw [← h]; exact List.mem_cons_self a rest)
                · exact Or.inr (List.mem_cons_of_mem a h)
              · intro c hc hcl hcs
                rcases List.mem_cons.mp hc with h | h
                · rw [h, htie.2]
                  exact hM
                · exact hD1 c h hcl hcs
              · intro c hc hcl hcs b2 hb2
                rcases List.mem_cons.mp hc with h | h
                · have hsame : b2 = b2a := by
                    have := hb2a.symm.trans hb2
                    injection this with hx
                    exact hx.symm
                  rw [hsame, h]
                  rw [h] at hcs
                  exact himpa hcs
                · exact hD2 c h hcl hcs b2 hb2
            · -- tie, not higher rpm: b0 stays
              have hsl : select_loop now preferred (a :: rest) (some b0) maxScore
                  = select_loop now preferred rest (some b0) maxScore := by
                simp only [select_loop]
                rw [if_neg hlim, if_neg hgt, if_pos htie]
                simp [hrpm]
              rw [hsl]
              obtain ⟨hV, hM, hC, hMem, hD1, hD2⟩ := ih (some b0) maxScore
                (Or.inr ⟨b0, rfl, hbl0, hbs0, hbpos0⟩)
              obtain ⟨b2a, hb2a, himpa⟩ := hC b0 rfl
              refine ⟨hV, hM, hC, ?_, ?_, ?_⟩
              · intro b2 hb2
                rcases hMem b2 hb2 with h | h
                · exact Or.inl h
                · exact Or.inr (List.mem_cons_of_mem a h)
              · intro c hc hcl hcs
                rcases List.mem_cons.mp hc with h | h
                · rw [h, htie.2]
                  exact hM
                · exact hD1 c h hcl hcs
              · intro c hc hcl hcs b2 hb2
                rcases List.mem_cons.mp hc with h | h
                · have hsame : b2 = b2a := by
                    have := hb2a.symm.trans hb2
                    injection this with hx
                    exact hx.symm
                  rw [hsame, h]
                  rw [h] at hcs
                  rw [htie.2] at hcs
                  have hb0le : b0.rate_limit_rpm ≤ b2a.rate_limit_rpm := by
                    refine himpa ?_
                    rw [hbs0]
                    exact hcs
                  exact le_trans (not_lt.mp hrpm) hb0le
                · exact hD2 c h hcl hcs b2 hb2
        · -- zero/low score: skipped
          have hsl : select_loop now preferred (a :: rest) best maxScore
              = select_loop now preferred rest best maxScore := by
            simp only [select_loop]
            rw [if_neg hlim, if_neg hgt, if_neg htie]
          rw [hsl]
          obtain ⟨hV, hM, hC, hMem, hD1, hD2⟩ := ih best maxScore hacc
          refine ⟨hV, hM, hC, ?_, ?_, ?_⟩
          · intro b2 hb2
            rcases hMem b2 hb2 with h | h
            · exact Or.inl h
            · exact Or.inr (List.mem_cons_of_mem a h)
          · intro c hc hcl hcs
            rcases List.mem_cons.mp hc with h | h
            · have hle : (strength_score preferred c.strengths : Int) ≤ maxScore := by
                rw [h]
                by_contra hcon
                push_neg at hcon
                exact hgt ⟨by rw [← h]; exact_mod_cast hcs, hcon⟩
              exact le_trans hle hM
            · exact hD1 c h hcl hcs
          · intro c hc hcl hcs b2 hb2
            rcases List.mem_cons.mp hc with h | h
            · exfalso
              rcases hV with ⟨hn, _⟩ | ⟨bf, hbf, _, hbfs, hbfpos⟩
              · rw [hn] at hb2
                exact absurd hb2 (by simp)
              · have hpos : 0 < (strength_score preferred c.strengths : Int) := by
                  rw [hcs]
                  exact hbfpos
                have hlt : (strength_score preferred a.strengths : Int) ≤ maxScore := by
                  by_contra hcon
                  push_neg at hcon
                  exact hgt ⟨by rw [← h]; exact hpos, hcon⟩
                have hne : (strength_score preferred a.strengths : Int) ≠ maxScore := by
                  intro heq
                  exact htie ⟨by rw [← h]; exact hpos, heq⟩
                have : (strength_score preferred c.strengths : Int) < maxScore := by
                  rw [h]
                  exact lt_of_le_of_ne hlt hne
                linarith [hM, hcs]
            · exact hD2 c h hcl hcs b2 hb2

/-! ### Claim C5 -/

/-- **C5** — `select_model(taskName)` fails with the router-level
`UnknownTask` outcome (logged warning, `None` returned) when no TaskProfile
exists for the task; otherwise it considers only adapters not currently at
or over their per-minute cap, scores each by the size of the intersection of
its capability tags with the profile preferred tags, returns none when every
candidate is rate-limited or scores 0, and any adapter it returns is a
non-rate-limited registry member of positive, maximal score whose configured
per-minute rate limit is maximal among equal scorers (the tie-break). -/
theorem select_model_spec (adapters : List AdapterInfo) (task_name : String) (now : ℚ) :
    (lookup_profile task_name = none → select_model adapters task_name now = none) ∧
    (∀ preferred, lookup_profile task_name = some preferred →
      ((∀ a ∈ adapters, a.isRateLimited now = true
            ∨ strength_score preferred a.strengths = 0) →
        select_model adapters task_name now = none) ∧
      (∀ a, select_model adapters task_name now = some a →
        a ∈ adapters ∧ a.isRateLimited now = false ∧
        0 < strength_score preferred a.strengths ∧
        (∀ b ∈ adapters, b.isRateLimited now = false →
          strength_score preferred b.strengths ≤ strength_score preferred a.strengths ∧
          (strength_score preferred b.strengths = strength_score preferred a.strengths →
            b.rate_limit_rpm ≤ a.rate_limit_rpm)))) := by
  constructor
  · intro hn
    simp [select_model, hn]
  · intro preferred hp
    have hsm : select_model adapters task_name now
        = if preferred.isEmpty then none
          else (select_loop now preferred adapters none (-1)).1 := by
      simp [select_model, hp]
    obtain ⟨hV, hM, hC, hMem, hD1, hD2⟩ :=
      select_loop_invariant now preferred adapters none (-1) (Or.inl ⟨rfl, rfl⟩)
    constructor
    · intro hall
      rw [hsm]
      by_cases hemp : preferred.isEmpty
      · simp [hemp]
      · rw [if_neg hemp]
        rcases hV with ⟨h1, _⟩ | ⟨b, hb, hbl, hbs, hbpos⟩
        · exact h1
        · exfalso
          have hbmem : b ∈ adapters := by
            rcases hMem b hb with h | h
            · exact absurd h (by simp)
            · exact h
          rcases hall b hbmem with h | h
          · rw [hbl] at h
            exact absurd h (by simp)
          · rw [h] at hbs
            simp at hbs
            linarith
    · intro a ha
      rw [hsm] at ha
      by_cases hemp : preferred.isEmpty
      · rw [if_pos hemp] at ha
        exact absurd ha (by simp)
      · rw [if_neg hemp] at ha
        have hmem : a ∈ adapters := by
          rcases hMem a ha with h | h
          · exact absurd h (by simp)
          · exact h
        rcases hV with ⟨h1, _⟩ | ⟨b, hb, hbl, hbs, hbpos⟩
        · rw [h1] at ha
          exact absurd ha (by simp)
        · have hba : b = a := by
            have := hb.symm.trans ha
            injection this
          subst hba
          refine ⟨hmem, hbl, ?_, ?_⟩
          · have hzi : (0:Int) < (strength_score preferred b.strengths : Int) := by
              rw [hbs]
              exact hbpos
            exact_mod_cast hzi
          · intro c hcmem hcl
            constructor
            · by_cases hz : 0 < strength_score preferred c.strengths
              · have h1 := hD1 c hcmem hcl hz
                have h2 : (strength_score preferred c.strengths : Int)
                    ≤ (strength_score preferred b.strengths : Int) := by
                  rw [hbs]
                  exact h1
                exact_mod_cast h2
              · have h0 : strength_score preferred c.strengths = 0 := by omega
                rw [h0]
                exact Nat.zero_le _
            · intro hceq
              refine hD2 c hcmem hcl ?_ b ha
              rw [← hbs]
              exact_mod_cast hceq

theorem select_model_spec_witness :
    (⟨"m1", ["fast"], 10, none⟩ : AdapterInfo) ∈ [(⟨"m1", ["fast"], 10, none⟩ : AdapterInfo)] ∧
    AdapterInfo.isRateLimited ⟨"m1", ["fast"], 10, none⟩ 0 = false ∧
    0 < strength_score ["fast", "chat", "efficient"] ["fast"] ∧
    (∀ b ∈ [(⟨"m1", ["fast"], 10, none⟩ : AdapterInfo)], b.isRateLimited 0 = false →
      strength_score ["fast", "chat", "efficient"] b.strengths
          ≤ strength_score ["fast", "chat", "efficient"] ["fast"] ∧
      (strength_score ["fast", "chat", "efficient"] b.strengths
          = strength_score ["fast", "chat", "efficient"] ["fast"] →
        b.rate_limit_rpm ≤ (10:Int))) :=
  ((select_model_spec [⟨"m1", ["fast"], 10, none⟩] "simple_chat" 0).2
    ["fast", "chat", "efficient"] rfl).2 ⟨"m1", ["fast"], 10, none⟩ rfl

/-! ### Claim C1 -/

/-- **C1 counterexample** — with a PendingConfirmation stored, a new command
submitted to `process_command_text` is NOT blocked: the dispatcher runs the
full turn — guards, exit phrases, daily reset, quota gate — and proceeds to
the LLM call stage exactly as it does with no confirmation pending (the
broken call site then raises `TypeError` into the generic handler, which
speaks the critical-error message either way).  The stored confirmation is
never read and never written on this path. -/
theorem pending_blocks_commands_cex :
    pending_state.pending_confirmation.isSome = true ∧
    (process_command_text pending_state "what time is it" 0 0).2
      = [.speak .criticalError] ∧
    (process_command_text pending_state "what time is it" 0 0).2
      = (process_command_text base_state "what time is it" 0 0).2 ∧
    (process_command_text pending_state "what time is it" 0 0).1.pending_confirmation
      = pending_state.pending_confirmation := by
  refine ⟨rfl, rfl, rfl, rfl⟩

/-- **C1 (amended)** — while a PendingConfirmation is stored, new commands
are NOT blocked: `process_command_text` never consults the stored
confirmation (only `handle_inactivity` and the GUI status display read it),
so every command is processed exactly as it would be with no confirmation
pending — the same guard, exit, rate-limit or critical-error actions, and
the same state change in every field other than `pending_confirmation`
itself, which nothing on this path writes. -/
theorem process_command_ignores_pending (s : CoreState) (p : Option PendingConfirmation)
    (user_input : String) (now : ℚ) (today_utc : Int) :
    (process_command_text { s with pending_confirmation := p } user_input now today_utc).2
      = (process_command_text s user_input now today_utc).2 ∧
    { (process_command_text { s with pending_confirmation := p } user_input now today_utc).1
        with pending_confirmation := none }
      = { (process_command_text s user_input now today_utc).1
          with pending_confirmation := none } := by
  rcases s with ⟨a, u, ci, ir, rq, tq, dc, cd, pc, il, si⟩
  simp only [process_command_text]
  split_ifs with h1 h2 h3
  · exact ⟨rfl, rfl⟩
  · exact ⟨rfl, rfl⟩
  · exact ⟨rfl, rfl⟩
  · have hsnd : (can_make_request (reset_daily_metrics_if_new_day
        (CoreState.mk a u ci ir rq tq dc cd p il si) today_utc) now).2
      = (can_make_request (reset_daily_metrics_if_new_day
        (CoreState.mk a u ci ir rq tq dc cd pc il si) today_utc) now).2 := by
      simp only [can_make_request, reset_daily_metrics_if_new_day, clean_old_metrics]
      split_ifs <;> rfl
    have hfst : { (can_make_request (reset_daily_metrics_if_new_day
          (CoreState.mk a u ci ir rq tq dc cd p il si) today_utc) now).1
          with pending_confirmation := none }
        = { (can_make_request (reset_daily_metrics_if_new_day
          (CoreState.mk a u ci ir rq tq dc cd pc il si) today_utc) now).1
          with pending_confirmation := none } := by
      simp only [can_make_request, reset_daily_metrics_if_new_day, clean_old_metrics]
      split_ifs <;> rfl
    rw [hsnd]
    rcases hq : (can_make_request (reset_daily_metrics_if_new_day
        (CoreState.mk a u ci ir rq tq dc cd pc il si) today_utc) now).2 with _ | reason
    · exact ⟨rfl, hfst⟩
    · exact ⟨rfl, hfst⟩

/-! ### Claim C2 -/

/-- **C2 counterexample** — when the DAILY ceiling blocks a turn (RPD hit,
rolling RPM window under its ceiling), the spoken rate-limit message carries
the RPD ceiling, not the configured RPM ceiling, refuting the claim that the
message always cites the RPM ceiling.  The turn still makes zero adapter
calls. -/
theorem rate_limit_message_cites_rpm_cex :
    (process_command_text { base_state with daily_request_count := 1500 }
        "hello" 0 0).2
      = [.speak (.rateLimited (.rpdLimit 1500 1500))] ∧
    BlockReason.cites_rpm_ceiling (.rpdLimit 1500 1500) = false ∧
    Action.adapterCall ∉
      (process_command_text { base_state with daily_request_count := 1500 }
        "hello" 0 0).2 := by
  have h : (process_command_text { base_state with daily_request_count := 1500 }
      "hello" 0 0).2
      = [.speak (.rateLimited (.rpdLimit 1500 1500))] := rfl
  refine ⟨h, rfl, ?_⟩
  rw [h]
  decide

/-- **C2 (amended)** — `_can_make_request` returns false exactly when the
pruned rolling-window RPM count has reached the RPM ceiling or the daily
request count has reached the RPD ceiling; TPM is never pre-checked (the
result is independent of the TPM queue); when it returns false the
dispatcher makes zero adapter calls for that turn, and the spoken message
carries the reason for the limit actually hit — citing the configured RPM
ceiling when the rolling count reached it, and the configured RPD ceiling
when the daily count did. -/
theorem rate_limit_gate_spec (s : CoreState) (now : ℚ) :
    ((can_make_request s now).2 = none ↔
      get_current_rpm s now < GEMINI_1_5_FLASH_RPM ∧
      s.daily_request_count < GEMINI_1_5_FLASH_RPD) ∧
    (GEMINI_1_5_FLASH_RPM ≤ get_current_rpm s now →
      (can_make_request s now).2
        = some (.rpmLimit GEMINI_1_5_FLASH_RPM (get_current_rpm s now))) ∧
    (get_current_rpm s now < GEMINI_1_5_FLASH_RPM →
      GEMINI_1_5_FLASH_RPD ≤ s.daily_request_count →
      (can_make_request s now).2
        = some (.rpdLimit GEMINI_1_5_FLASH_RPD s.daily_request_count)) ∧
    (∀ tq, (can_make_request { s with token_usage_tpm := tq } now).2
        = (can_make_request s now).2) ∧
    (∀ user_input today_utc reason,
      s.skill_context_init = true → ¬ s.current_user_name = "" → ¬ user_input = "" →
      is_exit_phrase s.ai_name user_input = false →
      (can_make_request (reset_daily_metrics_if_new_day s today_utc) now).2 = some reason →
      (process_command_text s user_input now today_utc).2
          = [.speak (.rateLimited reason)] ∧
      Action.adapterCall ∉
        (process_command_text s user_input now today_utc).2) := by
  refine ⟨?_, ?_, ?_, ?_, ?_⟩
  · rcases s with ⟨a, u, ci, ir, rq, tq, dc, cd, pc, il, si⟩
    simp only [can_make_request, clean_old_metrics, get_current_rpm]
    split_ifs with h1 h2 <;> simp_all
  · intro h
    rcases s with ⟨a, u, ci, ir, rq, tq, dc, cd, pc, il, si⟩
    simp only [get_current_rpm, clean_old_metrics] at h
    simp only [can_make_request, clean_old_metrics, get_current_rpm]
    rw [if_pos h]
  · intro h1 h2
    rcases s with ⟨a, u, ci, ir, rq, tq, dc, cd, pc, il, si⟩
    simp only [get_current_rpm, clean_old_metrics] at h1
    simp only [can_make_request, clean_old_metrics]
    rw [if_neg (Nat.not_le.mpr h1), if_pos h2]
  · intro tq2
    rcases s with ⟨a, u, ci, ir, rq, tq, dc, cd, pc, il, si⟩
    simp only [can_make_request, clean_old_metrics]
    split_ifs <;> rfl
  · intro user_input today_utc reason hinit huser hne hexit hreason
    have hcond : ¬ (s.skill_context_init = false ∨ s.current_user_name = "") := by
      simp [hinit, huser]
    simp only [process_command_text]
    rw [if_neg hcond, if_neg hne, if_neg (by simp [hexit]), hreason]
    exact ⟨rfl, by simp⟩

theorem rate_limit_gate_spec_witness :
    GEMINI_1_5_FLASH_RPM ≤ get_current_rpm blocked_rpm_state 0 ∧
    (can_make_request blocked_rpm_state 0).2
      = some (.rpmLimit GEMINI_1_5_FLASH_RPM (get_current_rpm blocked_rpm_state 0)) := by
  have hle : GEMINI_1_5_FLASH_RPM ≤ get_current_rpm blocked_rpm_state 0 := by
    norm_num [get_current_rpm, clean_old_metrics, blocked_rpm_state, base_state,
      GEMINI_1_5_FLASH_RPM, List.replicate, List.dropWhile]
  exact ⟨hle, (rate_limit_gate_spec blocked_rpm_state 0).2.1 hle⟩

/-- **C9 counterexample** — a zero-token `_record_api_usage` call does NOT
leave the TPM queue unchanged: the trailing `_clean_old_metrics` prunes
entries older than a minute, so at time 61 the stale entry `(0, 5)` is
dropped even though nothing was appended. -/
theorem tpm_queue_unchanged_cex :
    (record_api_usage stale_tpm_state 61 0 0).token_usage_tpm = [] ∧
    stale_tpm_state.token_usage_tpm = [(0, 5)] ∧
    (record_api_usage stale_tpm_state 61 0 0).token_usage_tpm
      ≠ stale_tpm_state.token_usage_tpm := by
  have h1 : (record_api_usage stale_tpm_state 61 0 0).token_usage_tpm = [] := by
    norm_num [record_api_usage, clean_old_metrics, stale_tpm_state, base_state,
      List.dropWhile]
  refine ⟨h1, rfl, ?_⟩
  rw [h1]
  simp [stale_tpm_state, base_state]

/-- **C9 (amended)** — every `_record_api_usage` call appends exactly one
timestamp to the RPM queue and increments the daily request count by exactly
one, and appends to the TPM queue only when `promptTokens + responseTokens >
0`; a zero-token call counts toward RPM and RPD, adds no TPM entry (the
call still prunes expired entries from both rolling queues), and leaves the
reported TPM total at that time unchanged. -/
theorem record_api_usage_spec (s : CoreState) (now : ℚ) (p r : Nat) :
    (record_api_usage s now p r).request_timestamps_rpm
      = prune_rpm (s.request_timestamps_rpm ++ [now]) now ∧
    (record_api_usage s now p r).daily_request_count = s.daily_request_count + 1 ∧
    (p + r = 0 →
      (record_api_usage s now p r).token_usage_tpm = prune_tpm s.token_usage_tpm now ∧
      get_current_tpm (record_api_usage s now p r) now = get_current_tpm s now) ∧
    (0 < p + r →
      (record_api_usage s now p r).token_usage_tpm
        = prune_tpm (s.token_usage_tpm ++ [(now, p + r)]) now) := by
  rcases s with ⟨a, u, ci, ir, rq, tq, dc, cd, pc, il, si⟩
  by_cases h : 0 < p + r
  · refine ⟨?_, ?_, ?_, ?_⟩
    · simp [record_api_usage, clean_old_metrics, prune_rpm, h]
    · simp [record_api_usage, clean_old_metrics, h]
    · intro h0
      omega
    · intro _
      simp [record_api_usage, clean_old_metrics, prune_tpm, h]
  · have h0 : ¬ (0 < p + r) := h
    refine ⟨?_, ?_, ?_, ?_⟩
    · simp [record_api_usage, clean_old_metrics, prune_rpm, h0]
    · simp [record_api_usage, clean_old_metrics, h0]
    · intro _
      constructor
      · simp [record_api_usage, clean_old_metrics, prune_tpm, h0]
      · simp only [get_current_tpm, record_api_usage, clean_old_metrics, h0, if_false]
        rw [dropWhile_idem]
    · intro hpos
      exact absurd hpos h

theorem record_api_usage_spec_witness :
    (record_api_usage stale_tpm_state 61 0 0).token_usage_tpm
      = prune_tpm stale_tpm_state.token_usage_tpm 61 ∧
    get_current_tpm (record_api_usage stale_tpm_state 61 0 0) 61
      = get_current_tpm stale_tpm_state 61 :=
  (record_api_usage_spec stale_tpm_state 61 0 0).2.2.1 rfl

/-! ### Claim C10 -/

/-- **C10** — `handle_gui_confirmation` clears the stored PendingConfirmation
before dispatching any fallback action: after any invocation that passed the
pending guard, `pending_confirmation` is `None` regardless of whether the
answer was yes or no and regardless of whether the `web_search` skill
exists, and the clearing precedes every dispatched action in the trace; when
no confirmation is pending the call leaves the whole state — the pending
field and the interaction log included — unchanged. -/
theorem handle_gui_confirmation_spec (s : CoreState) (confirmed : Bool)
    (skills : List String) :
    (∀ conf, s.pending_confirmation = some conf → s.skill_context_init = true →
      (handle_gui_confirmation s confirmed skills).1.pending_confirmation = none ∧
      ∃ rest, (handle_gui_confirmation s confirmed skills).2 = .clearPending :: rest) ∧
    (s.pending_confirmation = none →
      handle_gui_confirmation s confirmed skills = (s, [])) := by
  constructor
  · intro conf hconf hctx
    rcases s with ⟨a, u, ci, ir, rq, tq, dc, cd, pc, il, si⟩
    simp only at hconf hctx
    subst hconf
    subst hctx
    simp only [handle_gui_confirmation, add_interaction_log]
    constructor
    · split_ifs <;> rfl
    · exact ⟨_, rfl⟩
  · intro hnone
    rcases s with ⟨a, u, ci, ir, rq, tq, dc, cd, pc, il, si⟩
    simp only at hnone
    subst hnone
    cases ci <;> rfl

theorem handle_gui_confirmation_spec_witness :
    (handle_gui_confirmation pending_state true []).1.pending_confirmation = none ∧
    ∃ rest, (handle_gui_confirmation pending_state true []).2 = .clearPending :: rest :=
  (handle_gui_confirmation_spec pending_state true []).1
    (fallback_prompt_conf "earlier question") rfl rfl

end Praxis
